import Mathlib

/-!
# Verification of the QuanTile tile firmware

Shallow embedding of the QuanTile repository (qu_states.py, comm_util.py,
qu_tile.py) and proofs about the claims of its specification.

Bytes are modelled as natural numbers, byte streams as lists with all bytes
already buffered on the link, wall-clock time as exact rationals (the source
uses binary floats for its small sleep/timeout constants; the claims under
study depend only on the comparison structure of those constants, which the
exact rationals reproduce), and the Bloch-sphere angle arithmetic of
qu_states.py over the real numbers.
-/

namespace QuanTile

/-! ## Protocol engine: `Comm.waitForPattern` (comm_util.py lines 129-150)

The source polls a UART one byte at a time.  In the model the whole incoming
byte sequence is already buffered, so `in_waiting` is the length of the
remaining list.  Each iteration of the outer `while True` loop runs the inner
`for i in range(len(pattern))` pass and then sleeps for `waitTime = 0.001`
seconds; with `timeout > 0` the loop gives up once `timeEscape >= timeout`.
The outer loop can run forever when `timeout == 0`, so the model takes a fuel
argument and reports fuel exhaustion explicitly. -/

/-- One pass of the inner `for i in range(len(pattern))` loop: reads one byte
at a time while it matches the next pattern byte; `(true, rest)` once the
final pattern byte matched (`if i == len(pattern) - 1: return True`),
`(false, rest)` on the first mismatching byte (which stays consumed) or when
no byte is available (`dataAvail >= 1` fails). -/
def matchPass : List ℕ → List ℕ → Bool × List ℕ
  | [], inp => (true, inp)
  | _ :: _, [] => (false, [])
  | p :: ps, b :: rest => if b = p then matchPass ps rest else (false, rest)

/-- Outcome of a `waitForPattern` run: the Python function returns `True`
(pattern fully matched), returns `False` (timeout), or is still looping when
the model's fuel runs out. -/
inductive WfpResult
  | success (rest : List ℕ)
  | timedOut (rest : List ℕ)
  | fuelOut (rest : List ℕ)
  deriving DecidableEq, Repr

/-- `Comm.waitForPattern(uart, pattern, timeout)` over a fully buffered input.
`te` is the accumulated `timeEscape`; each outer iteration sleeps
`waitTime = 0.001` and, only when `timeout > 0`, adds it to `timeEscape` and
returns `False` once `timeEscape >= timeout`.  A `pattern` given to the
source is never empty (its only caller passes the 4-byte header); an empty
pattern makes the Python `for` body unreachable, so no pass can succeed,
which `matchPass`'s base case would misreport; the guard reproduces the
source behaviour. -/
def waitForPattern (pattern : List ℕ) (timeout : ℚ) : ℕ → ℚ → List ℕ → WfpResult
  | 0, _, inp => .fuelOut inp
  | fuel + 1, te, inp =>
    match if pattern = [] then (false, inp) else matchPass pattern inp with
    | (true, rest) => .success rest
    | (false, rest) =>
      if 0 < timeout then
        if timeout ≤ te + 1 / 1000 then .timedOut rest
        else waitForPattern pattern timeout fuel (te + 1 / 1000) rest
      else waitForPattern pattern timeout fuel te rest

/-- The 4-byte synchronization header `Comm._MsgHeader = [0x7f, 0xff, 0xff, 0xff]`. -/
def msgHeader : List ℕ := [0x7f, 0xff, 0xff, 0xff]

/-- Modelled from the spec's words for the refinement half of the
`waitForPattern` claim: "scans incoming bytes one at a time; restarts the
match from the beginning on any mismatched byte; returns success only after
consecutive bytes equal `pattern` in full".  `need` is the still-unmatched
tail of `pattern`; a mismatched byte is consumed and the scan restarts with
the full pattern on the remaining input. -/
def slidingScan (pattern : List ℕ) : List ℕ → List ℕ → Option (List ℕ)
  | [], inp => some inp
  | _ :: _, [] => none
  | p :: ps, b :: rest =>
    if b = p then slidingScan pattern ps rest else slidingScan pattern pattern rest
  termination_by need inp => (inp.length, need.length)

/-- The spec-level sliding matcher applied from the start of the pattern. -/
def slidingMatch (pattern inp : List ℕ) : Option (List ℕ) :=
  slidingScan pattern pattern inp

/-! ## IEEE-754 binary32 payload decoding

`struct.unpack('f', data)` / `ustruct.unpack('f', data)` on the 4-byte
payload slices.  Every finite binary32 value is a rational, so the decode is
exact over `ℚ`; the non-finite encodings (exponent field 255) have no
rational image and are mapped to 0 — no claim under study inspects a decoded
non-finite value.  `struct.unpack` raises unless the buffer holds exactly 4
bytes, which `unpackF` reports as an error. -/

/-- Little-endian byte-list to natural number. -/
def leNat (bs : List ℕ) : ℕ := bs.foldr (fun b acc => b + 256 * acc) 0

/-- Exact value of a little-endian IEEE-754 binary32 encoding. -/
def decodeF32le (bs : List ℕ) : ℚ :=
  let n : ℕ := leNat bs
  let sign : ℕ := n / 2 ^ 31
  let expo : ℕ := n / 2 ^ 23 % 256
  let frac : ℕ := n % 2 ^ 23
  let mag : ℚ :=
    if expo = 0 then (frac : ℚ) / 2 ^ 149
    else if expo = 255 then 0
    else ((2 ^ 23 + frac : ℕ) : ℚ) * 2 ^ expo / 2 ^ 150
  if sign = 1 then -mag else mag

/-- `struct.unpack('f', bs)[0]`: raises unless `bs` has exactly 4 bytes. -/
def unpackF (bs : List ℕ) : Except String ℚ :=
  if bs.length = 4 then .ok (decodeF32le bs)
  else .error "unpack requires a buffer of 4 bytes"

/-! ## `Comm.messageServiceRoutine` (comm_util.py lines 209-234)

One iteration of the `while self.messageServiceRoutineRunning` loop on
`uart_in`.  The routine waits for the sync header with `timeout=0.01`, then
for a 4-byte command (a failed `waitForBytes` makes it `continue`), then
dispatches on the opcode.  In the state-response branch the boolean result
of `self.waitForBytes(self.uart_in, 8)` is discarded and `read(8)` returns
whatever is buffered, so `unpack` runs on a possibly short slice.  The reads
happen over the same fully-buffered stream; `waitForBytes` is then the check
`dataAvail >= numBytes` and `read(n)` takes at most `n` remaining bytes. -/

/-- Outcome of one `messageServiceRoutine` iteration. -/
inductive MsrOut
  | skipped (rest : List ℕ)
  | stateUpdate (theta phi : ℚ) (rest : List ℕ)
  | typeUpdate (gateType : ℕ) (rest : List ℕ)
  | ignored (rest : List ℕ)
  | raised (msg : String)
  | noTerm
  deriving DecidableEq, Repr

/-- One iteration of `Comm.messageServiceRoutine` over buffered input. -/
def messageServiceStep (inp : List ℕ) (fuel : ℕ) : MsrOut :=
  match waitForPattern msgHeader (1 / 100) fuel 0 inp with
  | .fuelOut _ => .noTerm
  | .timedOut rest => .skipped rest
  | .success rest =>
    if rest.length < 4 then .skipped rest
    else
      let data := rest.take 4
      let rest2 := rest.drop 4
      if data.getD 0 0 = 0x81 then
        -- `self.waitForBytes(self.uart_in, 8)` — result discarded by the source
        let payload := rest2.take 8
        match unpackF (payload.take 4) with
        | .error e => .raised e
        | .ok theta =>
          match unpackF (payload.drop 4) with
          | .error e => .raised e
          | .ok phi => .stateUpdate theta phi (rest2.drop 8)
      else if data.getD 0 0 = 0x82 then .typeUpdate (data.getD 1 0) rest2
      else .ignored rest2

/-! ## `Comm.requestInputState` (comm_util.py lines 239-288)

The request loop sends a state request and waits `waitStep = 0.005` for the
sync header each attempt.  Whether a given wait sees the header depends on
real arrival timing, which the model abstracts as an oracle list of per-attempt
wait outcomes; the `timeLapse` accumulator against
`connectionTimeout = 0.01` is embedded exactly.  After a successful wait the
function reads the 12-byte response (4-byte command + 8 payload bytes) from
the buffered link. -/

/-- The status-indicator signals of indicator.py. -/
inductive Indication
  | validInput
  | invalidInput
  | openInput
  deriving DecidableEq, Repr

/-- The read phase of `requestInputState` (lines 263-288): `theta = phi = 0.0`
defaults, a 12-byte availability check, and a parse only of a complete frame
whose opcode is `QuantumStateResponse = 0x81`. -/
def readStatePhase (link : List ℕ) : (ℚ × ℚ) × Indication :=
  -- `self.waitForBytes(self.uart_in, 12, timeout=0.01)` — result discarded;
  -- the source then re-checks `dataAvail >= 12` itself.  `data = read(12)`
  -- is `link.take 12` below.
  if 12 ≤ link.length then
    if (link.take 12).length = 12 ∧ (link.take 12).getD 0 0 = 0x81 then
      ((decodeF32le (((link.take 12).drop 4).take 4),
        decodeF32le (((link.take 12).drop 8).take 4)), .validInput)
    else ((0, 0), .invalidInput)
  else ((0, 0), .openInput)

/-- The send/wait loop of `requestInputState` (lines 242-258): each attempt
re-sends the request and waits for the header; on a miss, either
`timeLapse < connectionTimeout` accrues `waitStep` and the loop retries, or
the function falls back to `(0.0, 0.0)` and `showOpenInput()`.  `none` means
the oracle ran out before the loop resolved. -/
def requestInputStateGo (link : List ℕ) : List Bool → ℚ → Option ((ℚ × ℚ) × Indication)
  | [], _ => none
  | found :: rest, timeLapse =>
    if found then some (readStatePhase link)
    else if timeLapse < 1 / 100 then requestInputStateGo link rest (timeLapse + 1 / 200)
    else some ((0, 0), .openInput)

/-- `Comm.requestInputState` with per-attempt wait outcomes given by `oracle`. -/
def requestInputState (oracle : List Bool) (link : List ℕ) :
    Option ((ℚ × ℚ) × Indication) :=
  requestInputStateGo link oracle 0

/-! ## `Comm.serviceRequest` (comm_util.py lines 312-378) and the QuTile hooks

The tile-side state kept by `QuTile.__init__` (qu_tile.py lines 40-60):
the active operator `_operator = eval('GateOperators.' + name)`, the type
member `_type = eval('GateTypes.' + name)` and `_name`.  The enum members are
identified here by their name string together with, for `_type`, the wire
code from the `GateTypes` table of qu_states.py (lines 57-76). -/

/-- The `GateTypes` enumeration (qu_states.py lines 57-76), in source order:
member name and wire code. -/
def gateTypesList : List (String × ℕ) :=
  [("UNDEFINED", 0x00), ("IDENTITY", 0x01), ("PAULI_X", 0x02),
   ("PAULI_Y", 0x03), ("PAULI_Z", 0x04), ("HADAMARD", 0x05),
   ("RX_PI_DIV2", 0x06), ("RY_PI_DIV2", 0x07), ("RZ_PI_DIV2", 0x08),
   ("RX_PI_DIV4", 0x09), ("RY_PI_DIV4", 0x0a), ("RZ_PI_DIV4", 0x0b),
   ("PHASE", 0x0e), ("TWIRL", 0x0f), ("CONTROLLED_NOT", 0x41),
   ("CONTROLLED_Z", 0x42), ("SWAP", 0x43), ("TOFFOLI", 0x81)]

/-- `GateTypes` code lookup by member name (`eval('GateTypes.' + name).value`). -/
def gateTypeValue (name : String) : ℕ :=
  ((gateTypesList.find? fun p => p.1 = name).map Prod.snd).getD 0

/-- The serviceRequest lookup loop (lines 367-373): first `GateTypes` member
whose `value` equals the requested id, defaulting to `"UNDEFINED"`. -/
def gateTypeNameOfId (id : ℕ) : String :=
  ((gateTypesList.find? fun p => p.2 = id).map Prod.fst).getD "UNDEFINED"

/-- The mutable tile configuration of `QuTile`: `_operator` (identified by
its `GateOperators` member name), `_type` (a `GateTypes` member) and `_name`. -/
structure TileState where
  opName : String
  typeName : String
  typeVal : ℕ
  deriving DecidableEq, Repr

/-- The `replaceOperator` callback registered by `QuTile.__init__`
(qu_tile.py lines 56-60): re-resolves both enums from the name. -/
def tileReplaceOperator (_t : TileState) (name : String) : TileState :=
  { opName := name, typeName := name, typeVal := gateTypeValue name }
  -- the replaced configuration is discarded; every field is overwritten

/-- The per-purpose callback slots of `Comm`; `none` models a slot that was
never registered (`getQuantumState = None` etc.).  The callbacks read or
update the owning tile's `TileState`. -/
structure Hooks where
  getQuantumState : Option (TileState → ℚ × ℚ)
  getComponentType : Option (TileState → ℕ)
  replaceOperator : Option (TileState → String → TileState)

/-- Observable effects of one `serviceRequest` call: bytes written to
`uart_out`, files written (`gate.cfg`), the raised exception if any, and the
tile configuration afterwards.  Effects that precede a raise are kept — the
source has already performed them when the exception propagates. -/
structure SvcOut where
  written : List ℕ
  files : List (String × String)
  err : Option String
  tile : TileState
  deriving DecidableEq, Repr

/-- One call of `Comm.serviceRequest` over buffered `uart_out` input.
`pack` is the platform's `ustruct.pack("f", value)` of `sendFloat`
(comm_util.py lines 308-310), left as a parameter: the claims under study
never inspect the encoded payload bytes.  The initial
`waitForPattern(self.uart_out, self._MsgHeader)` uses the default infinite
timeout, so the model returns `none` when the fuelled wait does not resolve.
If fewer than 4 command bytes are available after the header the function
falls through and returns without effects. -/
def serviceRequest (hooks : Hooks) (pack : ℚ → List ℕ) (t : TileState)
    (inp : List ℕ) (fuel : ℕ) : Option SvcOut :=
  match waitForPattern msgHeader 0 fuel 0 inp with
  | .fuelOut _ => none
  | .timedOut _ => none
  | .success rest =>
    -- `self.waitForBytes(self.uart_out, 4, timeout=0.01)` — result discarded;
    -- the source then checks `dataAvail >= 4` itself.
    if rest.length < 4 then some ⟨[], [], none, t⟩
    else
      let data := rest.take 4
      if data.getD 0 0 = 0x01 then
        -- sync and the QuantumStateResponse command bytes are written first
        let pre := msgHeader ++ [0x81, 1, 1, 0]
        match hooks.getQuantumState with
        | some get =>
          let s := get t
          some ⟨pre ++ pack s.1 ++ pack s.2, [], none, t⟩
        | none =>
          some ⟨pre, [], some "Function for tateRequestCallback is not set.", t⟩
      else if data.getD 0 0 = 0x02 then
        -- sync is written, then the hook is consulted before the response bytes
        match hooks.getComponentType with
        | some get =>
          some ⟨msgHeader ++ [0x82, get t, 0, 0], [], none, t⟩
        | none =>
          some ⟨msgHeader, [], some "Function for getComponentType is not set.", t⟩
      else if data.getD 0 0 = 0x03 then
        let name := gateTypeNameOfId (data.getD 1 0)
        let t' := match hooks.replaceOperator with
          | some rep => rep t name
          | none => t   -- `if self.replaceOperator:` — silently skipped
        some ⟨[], [("gate.cfg", name)], none, t'⟩
      else some ⟨[], [], none, t⟩

/-! ## `QuantumBitState.__init__` (qu_states.py lines 149-169)

The constructor canonicalizes the Bloch-sphere angles with four `while`
loops and a mirror step.  The angle arithmetic is embedded over `ℝ`; each
`while` loop is a well-founded recursion whose measure counts the remaining
2π steps. -/

open Real in
/-- `while x < 0.0: x += math.pi * 2`. -/
noncomputable def wrapUpTwoPi (x : ℝ) : ℝ :=
  if h : x < 0 then wrapUpTwoPi (x + 2 * π) else x
  termination_by (⌈-x / (2 * π)⌉).toNat
  decreasing_by
    have hπ : (0 : ℝ) < 2 * π := by positivity
    have key : -(x + 2 * π) / (2 * π) = -x / (2 * π) - 1 := by field_simp; ring
    have hpos : 0 < ⌈-x / (2 * π)⌉ :=
      Int.ceil_pos.mpr (div_pos (by linarith) hπ)
    rw [key, Int.ceil_sub_one]
    omega

open Real in
/-- `while x > math.pi * 2: x -= math.pi * 2`. -/
noncomputable def wrapDownTwoPi (x : ℝ) : ℝ :=
  if h : 2 * π < x then wrapDownTwoPi (x - 2 * π) else x
  termination_by (⌈x / (2 * π)⌉ - 1).toNat
  decreasing_by
    have hπ : (0 : ℝ) < 2 * π := by positivity
    have key : (x - 2 * π) / (2 * π) = x / (2 * π) - 1 := by field_simp
    have hpos : 1 < x / (2 * π) := (one_lt_div hπ).mpr h
    rw [key, Int.ceil_sub_one]
    have : 1 < ⌈x / (2 * π)⌉ := by
      have := Int.lt_ceil.mpr (by exact_mod_cast hpos : ((1 : ℤ) : ℝ) < x / (2 * π))
      omega
    omega

open Real in
/-- `QuantumBitState.__init__(theta, phi)`: wrap `theta` into `[0, 2π]`,
mirror on the Z axis when the wrapped `theta` exceeds `π`
(`theta = 2π − theta`, `phi += π`), then wrap `phi`. -/
noncomputable def quantumBitStateInit (theta phi : ℝ) : ℝ × ℝ :=
  if π < wrapDownTwoPi (wrapUpTwoPi theta) then
    (2 * π - wrapDownTwoPi (wrapUpTwoPi theta), wrapDownTwoPi (wrapUpTwoPi (phi + π)))
  else
    (wrapDownTwoPi (wrapUpTwoPi theta), wrapDownTwoPi (wrapUpTwoPi phi))

/-! ## `QuStates` (qu_states.py lines 241-257)

`states = []` at class level is a single shared list: Python attribute
lookup on `self.states` finds the class attribute, and the constructor's
`self.states.append(...)` mutates that shared list.  The model therefore
threads the class-level list through each construction: a construction with
default `(theta, phi)` and `init_states=None` appends `num_bits` fresh
states to whatever the class list already holds, and `getNumBits` of every
instance is the length of the shared list. -/

/-- `QuStates.__init__(init_states=None, num_bits, theta, phi)` acting on the
shared class-level `states` list. -/
noncomputable def quStatesInit (classStates : List (ℝ × ℝ)) (numBits : ℕ)
    (theta phi : ℝ) : Except String (List (ℝ × ℝ)) :=
  if numBits = 0 then .error "Number of qubit less than 1"
  else .ok (classStates ++ List.replicate numBits (quantumBitStateInit theta phi))

/-- `QuStates.getNumBits()` reads the shared class-level list. -/
def getNumBits (states : List (ℝ × ℝ)) : ℕ := states.length

/-! ## Basis amplitudes and rotation (qu_states.py lines 178-238)

`getStandardBasisState` derives the amplitude pair from the stored angles;
`setStandardBasisState` normalizes an amplitude pair, removes the global
phase by dividing by `alpha/|alpha|` (taken as 1 when `alpha == 0`), derives
`theta = 2*acos(|alpha|)` and `phi = phase(beta*global_phase)`, and forces
`phi = 0` when the derived `theta` is exactly 0.  `rotate` multiplies the
amplitude vector by a matrix (`psnp.mat_vec_mul`) and writes the result
back; `operate` first checks the operator is 2x2. -/

/-- `QuantumBitState.getStandardBasisState`:
`alpha = cos(theta/2)`, `beta = exp(1j*phi) * sin(theta/2)`. -/
noncomputable def getStandardBasisState (theta phi : ℝ) : ℂ × ℂ :=
  ((Real.cos (theta / 2) : ℂ),
    Complex.exp (phi * Complex.I) * (Real.sin (theta / 2) : ℂ))

/-- The normalization factor
`np.sqrt(np.sum(np.real(st)**2 + np.imag(st)**2))` of line 189. -/
noncomputable def stateNorm (alpha beta : ℂ) : ℝ :=
  Real.sqrt ((alpha.re ^ 2 + alpha.im ^ 2) + (beta.re ^ 2 + beta.im ^ 2))

/-- The `global_phase` factor of lines 193-196: `1` when `alpha == 0`, else
`abs(alpha) / alpha`. -/
noncomputable def globalPhase (alpha : ℂ) : ℂ :=
  if alpha = 0 then 1 else (Complex.abs alpha : ℂ) / alpha

/-- `QuantumBitState.setStandardBasisState(alpha, beta)` (lines 183-199):
normalize, derive `theta` and `phi` modulo global phase (`cmath.phase`
is `Complex.arg`), and force `phi = 0` when the derived `theta` is 0. -/
noncomputable def setStandardBasisState (alpha beta : ℂ) : ℝ × ℝ :=
  if 2 * Real.arccos (Complex.abs (alpha / (stateNorm alpha beta : ℂ))) = 0 then
    (2 * Real.arccos (Complex.abs (alpha / (stateNorm alpha beta : ℂ))), 0)
  else
    (2 * Real.arccos (Complex.abs (alpha / (stateNorm alpha beta : ℂ))),
      (beta / (stateNorm alpha beta : ℂ) *
        globalPhase (alpha / (stateNorm alpha beta : ℂ))).arg)

/-- `psnp.mat_vec_mul` (pseudo_numpy.py lines 47-62) on a vector. -/
def matVecMul (a : List (List ℂ)) (b : List ℂ) : List ℂ :=
  a.map fun row => (List.zipWith (fun x y => x * y) row b).sum

/-- `QuantumBitState.rotate(matrix, update=True)` (lines 206-217): the new
amplitudes are written back through `setStandardBasisState`; the resulting
stored `(theta, phi)` pair is returned. -/
noncomputable def rotate (theta phi : ℝ) (matrix : List (List ℂ)) : ℝ × ℝ :=
  setStandardBasisState
    ((matVecMul matrix
        [(getStandardBasisState theta phi).1, (getStandardBasisState theta phi).2]).getD 0 0)
    ((matVecMul matrix
        [(getStandardBasisState theta phi).1, (getStandardBasisState theta phi).2]).getD 1 0)

/-- `QuantumBitState.operate(operator, update=True)` (lines 234-238):
rejects non-2x2 operators, otherwise delegates to `rotate`. -/
noncomputable def operate (theta phi : ℝ) (operator : List (List ℂ)) :
    Except String (ℝ × ℝ) :=
  if operator.length ≠ 2 ∨ operator.headI.length ≠ 2 then
    .error "Operator matrix for a single qubit requires 2x2."
  else .ok (rotate theta phi operator)

/-- `GateOperators.IDENTITY` (qu_states.py lines 82-84). -/
def identityOperator : List (List ℂ) := [[1, 0], [0, 1]]

/-! ## Publish/read interleaving of the tile output (qu_tile.py lines 48-49, 83)

`updateStateRoutine` publishes `self.outState = state`: a single reference
assignment of a freshly built, no-longer-mutated object.  The
`getQuantumState` hook returns `self.outState.theta, self.outState.phi`: two
separate attribute loads of `self.outState`, one per angle, so a publish can
land between them.  The model records, for one hook invocation, the
publishes that completed before the first load and those that land between
the two loads; each load sees the latest published pair.  Angle payloads are
data only, written here over `ℚ`. -/

/-- The value of `self.outState` after a sequence of publishes on top of an
initial published state: the last assignment wins. -/
def publishedAfter (init : ℚ × ℚ) (writes : List (ℚ × ℚ)) : ℚ × ℚ :=
  writes.getLast?.getD init

/-- One execution of the `getQuantumState` hook under an interleaving where
`beforeFirst` publishes complete before the `theta` load and `betweenReads`
publishes land between the `theta` load and the `phi` load. -/
def getQuantumStateObserved (init : ℚ × ℚ)
    (beforeFirst betweenReads : List (ℚ × ℚ)) : ℚ × ℚ :=
  ((publishedAfter init beforeFirst).1,
    (publishedAfter init (beforeFirst ++ betweenReads)).2)

open Real in
theorem wrapUpTwoPi_nonneg (x : ℝ) : 0 ≤ wrapUpTwoPi x := by
  rw [wrapUpTwoPi]
  split
  · exact wrapUpTwoPi_nonneg (x + 2 * π)
  · linarith [not_lt.mp (by assumption : ¬ x < 0)]
  termination_by (⌈-x / (2 * π)⌉).toNat
  decreasing_by
    have hπ : (0 : ℝ) < 2 * π := by positivity
    have key : -(x + 2 * π) / (2 * π) = -x / (2 * π) - 1 := by field_simp; ring
    have hpos : 0 < ⌈-x / (2 * π)⌉ :=
      Int.ceil_pos.mpr (div_pos (by linarith) hπ)
    rw [key, Int.ceil_sub_one]
    omega

open Real in
theorem wrapUpTwoPi_of_nonneg {x : ℝ} (h : 0 ≤ x) : wrapUpTwoPi x = x := by
  rw [wrapUpTwoPi]
  exact dif_neg (not_lt.mpr h)

open Real in
theorem wrapUpTwoPi_int (x : ℝ) : ∃ n : ℤ, wrapUpTwoPi x = x + 2 * π * n := by
  rw [wrapUpTwoPi]
  split
  · obtain ⟨n, hn⟩ := wrapUpTwoPi_int (x + 2 * π)
    exact ⟨n + 1, by rw [hn]; push_cast; ring⟩
  · exact ⟨0, by push_cast; ring⟩
  termination_by (⌈-x / (2 * π)⌉).toNat
  decreasing_by
    have hπ : (0 : ℝ) < 2 * π := by positivity
    have key : -(x + 2 * π) / (2 * π) = -x / (2 * π) - 1 := by field_simp; ring
    have hpos : 0 < ⌈-x / (2 * π)⌉ :=
      Int.ceil_pos.mpr (div_pos (by linarith) hπ)
    rw [key, Int.ceil_sub_one]
    omega

open Real in
theorem wrapDownTwoPi_le (x : ℝ) : wrapDownTwoPi x ≤ 2 * π := by
  rw [wrapDownTwoPi]
  split
  · exact wrapDownTwoPi_le (x - 2 * π)
  · linarith [not_lt.mp (by assumption : ¬ 2 * π < x)]
  termination_by (⌈x / (2 * π)⌉ - 1).toNat
  decreasing_by
    have hπ : (0 : ℝ) < 2 * π := by positivity
    have key : (x - 2 * π) / (2 * π) = x / (2 * π) - 1 := by field_simp
    have hpos : 1 < x / (2 * π) := (one_lt_div hπ).mpr (by assumption)
    rw [key, Int.ceil_sub_one]
    have : 1 < ⌈x / (2 * π)⌉ := by
      have := Int.lt_ceil.mpr (by exact_mod_cast hpos : ((1 : ℤ) : ℝ) < x / (2 * π))
      omega
    omega

open Real in
theorem wrapDownTwoPi_nonneg {x : ℝ} (h : 0 ≤ x) : 0 ≤ wrapDownTwoPi x := by
  rw [wrapDownTwoPi]
  split
  · exact wrapDownTwoPi_nonneg (by nlinarith [pi_pos] : (0 : ℝ) ≤ x - 2 * π)
  · exact h
  termination_by (⌈x / (2 * π)⌉ - 1).toNat
  decreasing_by
    have hπ : (0 : ℝ) < 2 * π := by positivity
    have key : (x - 2 * π) / (2 * π) = x / (2 * π) - 1 := by field_simp
    have hpos : 1 < x / (2 * π) := (one_lt_div hπ).mpr (by assumption)
    rw [key, Int.ceil_sub_one]
    have : 1 < ⌈x / (2 * π)⌉ := by
      have := Int.lt_ceil.mpr (by exact_mod_cast hpos : ((1 : ℤ) : ℝ) < x / (2 * π))
      omega
    omega

open Real in
theorem wrapDownTwoPi_of_le {x : ℝ} (h : x ≤ 2 * π) : wrapDownTwoPi x = x := by
  rw [wrapDownTwoPi]
  exact dif_neg (not_lt.mpr h)

open Real in
theorem wrapDownTwoPi_int (x : ℝ) : ∃ n : ℤ, wrapDownTwoPi x = x + 2 * π * n := by
  rw [wrapDownTwoPi]
  split
  · obtain ⟨n, hn⟩ := wrapDownTwoPi_int (x - 2 * π)
    exact ⟨n - 1, by rw [hn]; push_cast; ring⟩
  · exact ⟨0, by push_cast; ring⟩
  termination_by (⌈x / (2 * π)⌉ - 1).toNat
  decreasing_by
    have hπ : (0 : ℝ) < 2 * π := by positivity
    have key : (x - 2 * π) / (2 * π) = x / (2 * π) - 1 := by field_simp
    have hpos : 1 < x / (2 * π) := (one_lt_div hπ).mpr (by assumption)
    rw [key, Int.ceil_sub_one]
    have : 1 < ⌈x / (2 * π)⌉ := by
      have := Int.lt_ceil.mpr (by exact_mod_cast hpos : ((1 : ℤ) : ℝ) < x / (2 * π))
      omega
    omega

open Real in
/-- Both wraps in sequence land in `[0, 2π]` and shift by a whole number of
turns. -/
theorem wrap_both (x : ℝ) :
    0 ≤ wrapDownTwoPi (wrapUpTwoPi x) ∧ wrapDownTwoPi (wrapUpTwoPi x) ≤ 2 * π ∧
      ∃ n : ℤ, wrapDownTwoPi (wrapUpTwoPi x) = x + 2 * π * n := by
  refine ⟨wrapDownTwoPi_nonneg (wrapUpTwoPi_nonneg x), wrapDownTwoPi_le _, ?_⟩
  obtain ⟨n, hn⟩ := wrapUpTwoPi_int x
  obtain ⟨m, hm⟩ := wrapDownTwoPi_int (wrapUpTwoPi x)
  exact ⟨n + m, by rw [hm, hn]; push_cast; ring⟩

open Real in
/-- The constructed default state `QuantumBitState()` is `(0, 0)`. -/
theorem quantumBitStateInit_zero : quantumBitStateInit 0 0 = (0, 0) := by
  have h1 : wrapUpTwoPi (0 : ℝ) = 0 := wrapUpTwoPi_of_nonneg le_rfl
  have h2 : wrapDownTwoPi (0 : ℝ) = 0 := wrapDownTwoPi_of_le (by positivity)
  rw [quantumBitStateInit, h1, h2, if_neg (by linarith [pi_pos])]

theorem matVecMul_identity (a b : ℂ) :
    matVecMul identityOperator [a, b] = [a, b] := by
  simp [matVecMul, identityOperator]

open Real in
/-- Writing the amplitudes of a canonically stored state straight back re-derives
`theta` exactly; `phi` is re-derived as `cmath.phase(e^(i*phi))`, i.e. rewrapped
into `(-π, π]`, and forced to 0 at the `theta = 0` pole. -/
theorem setStandardBasisState_unit (θ φ : ℝ) (h0 : 0 ≤ θ) (h1 : θ ≤ π)
    (h2 : 0 ≤ φ) (h3 : φ < 2 * π) :
    setStandardBasisState ((Real.cos (θ / 2) : ℂ))
        (Complex.exp (φ * Complex.I) * (Real.sin (θ / 2) : ℂ)) =
      (θ, if θ = 0 then 0 else if φ ≤ π then φ else φ - 2 * π) := by
  have hπ := Real.pi_pos
  set c := Real.cos (θ / 2) with hc
  set s := Real.sin (θ / 2) with hs
  have hθ2a : 0 ≤ θ / 2 := by linarith
  have hθ2b : θ / 2 ≤ π / 2 := by linarith
  have hcnn : 0 ≤ c := by
    rw [hc]; exact Real.cos_nonneg_of_mem_Icc ⟨by linarith, hθ2b⟩
  have hcs : c ^ 2 + s ^ 2 = 1 := by rw [hc, hs]; exact Real.cos_sq_add_sin_sq _
  have htrig : Real.cos φ ^ 2 + Real.sin φ ^ 2 = 1 := Real.cos_sq_add_sin_sq φ
  have hβ : Complex.exp (↑φ * Complex.I) * (s : ℂ) =
      ((Real.cos φ * s : ℝ) : ℂ) + ((Real.sin φ * s : ℝ) : ℂ) * Complex.I := by
    rw [Complex.exp_mul_I, ← Complex.ofReal_cos, ← Complex.ofReal_sin]
    push_cast
    ring
  have hnorm : stateNorm (c : ℂ) (Complex.exp (↑φ * Complex.I) * (s : ℂ)) = 1 := by
    rw [stateNorm, hβ]
    simp only [Complex.ofReal_re, Complex.ofReal_im, Complex.add_re, Complex.add_im,
      Complex.mul_I_re, Complex.mul_I_im, neg_zero, add_zero, zero_add]
    rw [Real.sqrt_eq_one]
    linear_combination s ^ 2 * htrig + hcs
  rw [setStandardBasisState, hnorm]
  simp only [Complex.ofReal_one, div_one]
  have habs : Complex.abs (c : ℂ) = c := by
    rw [Complex.abs_ofReal, abs_of_nonneg hcnn]
  have harc : 2 * Real.arccos (Complex.abs (c : ℂ)) = θ := by
    rw [habs, hc, Real.arccos_cos hθ2a (by linarith)]
    ring
  rw [harc]
  by_cases hz : θ = 0
  · rw [if_pos hz]
    simp [hz]
  · rw [if_neg hz]
    have hspos : 0 < s := by
      rw [hs]
      apply Real.sin_pos_of_pos_of_lt_pi
      · rcases lt_or_eq_of_le h0 with h | h
        · linarith
        · exact absurd h.symm hz
      · linarith
    have hgp : globalPhase (c : ℂ) = 1 := by
      rw [globalPhase]
      split
      · rfl
      · rename_i hne
        rw [habs]
        exact div_self hne
    rw [hgp, mul_one]
    have hargexp : (Complex.exp (↑φ * Complex.I) * (s : ℂ)).arg =
        if φ ≤ π then φ else φ - 2 * π := by
      rw [mul_comm, Complex.arg_real_mul _ hspos, Complex.exp_mul_I]
      by_cases hφ : φ ≤ π
      · rw [if_pos hφ]
        exact Complex.arg_cos_add_sin_mul_I ⟨by linarith, hφ⟩
      · rw [if_neg hφ]
        push_neg at hφ
        have hc2 : Complex.cos ((φ - 2 * π : ℝ) : ℂ) = Complex.cos ↑φ := by
          push_cast
          exact Complex.cos_sub_two_pi _
        have hs2 : Complex.sin ((φ - 2 * π : ℝ) : ℂ) = Complex.sin ↑φ := by
          push_cast
          exact Complex.sin_sub_two_pi _
        rw [← hc2, ← hs2]
        exact Complex.arg_cos_add_sin_mul_I ⟨by linarith, by linarith⟩
    rw [hargexp, if_neg hz]

theorem matchPass_decomp (need : List ℕ) :
    ∀ inp b rest, matchPass need inp = (b, rest) → ∃ pre, inp = pre ++ rest := by
  induction need with
  | nil =>
    intro inp b rest h
    simp only [matchPass, Prod.mk.injEq] at h
    exact ⟨[], by simp [h.2]⟩
  | cons p ps ih =>
    intro inp b rest h
    cases inp with
    | nil =>
      simp only [matchPass, Prod.mk.injEq] at h
      exact ⟨[], by simp [h.2]⟩
    | cons x xs =>
      simp only [matchPass] at h
      split at h
      · obtain ⟨pre, hp⟩ := ih xs b rest h
        exact ⟨x :: pre, by simp [hp]⟩
      · simp only [Prod.mk.injEq] at h
        exact ⟨[x], by simp [h.2]⟩

theorem matchPass_true (need : List ℕ) :
    ∀ inp rest, matchPass need inp = (true, rest) → inp = need ++ rest := by
  induction need with
  | nil =>
    intro inp rest h
    simp only [matchPass, Prod.mk.injEq] at h
    simp [h.2]
  | cons p ps ih =>
    intro inp rest h
    cases inp with
    | nil => simp [matchPass] at h
    | cons x xs =>
      simp only [matchPass] at h
      split at h
      · rename_i hx
        rw [hx, List.cons_append]
        exact congrArg _ (ih xs rest h)
      · simp at h

theorem matchPass_self (pat : List ℕ) (rest : List ℕ) :
    matchPass pat (pat ++ rest) = (true, rest) := by
  induction pat with
  | nil => rfl
  | cons p ps ih =>
    simp only [List.cons_append, matchPass, if_pos rfl]
    exact ih

theorem matchPass_false_scan (pat : List ℕ) (hpat : pat ≠ []) :
    ∀ need inp rest, matchPass need inp = (false, rest) →
      slidingScan pat need inp = slidingScan pat pat rest := by
  intro need
  induction need with
  | nil => intro inp rest h; simp [matchPass] at h
  | cons p ps ih =>
    intro inp rest h
    cases inp with
    | nil =>
      simp only [matchPass, Prod.mk.injEq] at h
      rw [← h.2]
      cases pat with
      | nil => exact absurd rfl hpat
      | cons q qs => rw [slidingScan, slidingScan]
    | cons x xs =>
      simp only [matchPass] at h
      split at h
      · rename_i hx
        rw [slidingScan, if_pos hx]
        exact ih xs rest h
      · rename_i hx
        simp only [Prod.mk.injEq] at h
        rw [slidingScan, if_neg hx, h.2]

theorem matchPass_true_scan (pat : List ℕ) :
    ∀ need inp rest, matchPass need inp = (true, rest) →
      slidingScan pat need inp = some rest := by
  intro need
  induction need with
  | nil =>
    intro inp rest h
    simp only [matchPass, Prod.mk.injEq] at h
    rw [slidingScan, h.2]
  | cons p ps ih =>
    intro inp rest h
    cases inp with
    | nil => simp [matchPass] at h
    | cons x xs =>
      simp only [matchPass] at h
      split at h
      · rename_i hx
        rw [slidingScan, if_pos hx]
        exact ih xs rest h
      · simp at h

theorem matchPass_false_progress (need : List ℕ) :
    ∀ inp rest, matchPass need inp = (false, rest) →
      (inp = [] ∧ rest = []) ∨ rest.length < inp.length := by
  induction need with
  | nil => intro inp rest h; simp [matchPass] at h
  | cons p ps ih =>
    intro inp rest h
    cases inp with
    | nil =>
      simp only [matchPass, Prod.mk.injEq] at h
      exact Or.inl ⟨rfl, h.2.symm⟩
    | cons x xs =>
      simp only [matchPass] at h
      split at h
      · rcases ih xs rest h with ⟨hxs, hr⟩ | hlt
        · subst hxs; subst hr; exact Or.inr (by simp)
        · exact Or.inr (by simp; omega)
      · simp only [Prod.mk.injEq] at h
        rw [← h.2]
        exact Or.inr (by simp)

theorem wfp_success_decomp (pat : List ℕ) (t : ℚ) :
    ∀ (fuel : ℕ) (te : ℚ) inp r, waitForPattern pat t fuel te inp = .success r →
      ∃ junk, inp = junk ++ pat ++ r := by
  intro fuel
  induction fuel with
  | zero => intro te inp r h; exact WfpResult.noConfusion h
  | succ n ih =>
    intro te inp r h
    simp only [waitForPattern] at h
    split at h
    · rename_i rest heq
      cases h
      by_cases hpat : pat = []
      · rw [if_pos hpat] at heq
        simp only [Prod.mk.injEq] at heq
        exact absurd heq.1 (by simp)
      · rw [if_neg hpat] at heq
        exact ⟨[], by simpa using matchPass_true pat inp r heq⟩
    · rename_i rest heq
      have hdec : ∃ pre, inp = pre ++ rest := by
        by_cases hpat : pat = []
        · rw [if_pos hpat] at heq
          simp only [Prod.mk.injEq] at heq
          exact ⟨[], by simp [heq.2]⟩
        · rw [if_neg hpat] at heq
          exact matchPass_decomp pat inp false rest heq
      obtain ⟨pre, hpre⟩ := hdec
      split at h
      · split at h
        · exact WfpResult.noConfusion h
        · obtain ⟨junk, hj⟩ := ih _ rest r h
          exact ⟨pre ++ junk, by simp [hpre, hj]⟩
      · obtain ⟨junk, hj⟩ := ih _ rest r h
        exact ⟨pre ++ junk, by simp [hpre, hj]⟩

theorem wfp_zero_no_timeout (pat : List ℕ) :
    ∀ (fuel : ℕ) (te : ℚ) inp r, waitForPattern pat 0 fuel te inp ≠ .timedOut r := by
  intro fuel
  induction fuel with
  | zero => intro te inp r h; exact WfpResult.noConfusion h
  | succ n ih =>
    intro te inp r h
    simp only [waitForPattern] at h
    split at h
    · exact WfpResult.noConfusion h
    · rw [if_neg (lt_irrefl 0)] at h
      exact ih te _ r h

theorem wfp_pos_no_fuelOut (pat : List ℕ) (t : ℚ) (ht : 0 < t) :
    ∀ (fuel : ℕ) (te : ℚ) inp r, te < t → t ≤ te + fuel * (1 / 1000) →
      waitForPattern pat t fuel te inp ≠ .fuelOut r := by
  intro fuel
  induction fuel with
  | zero =>
    intro te inp r h1 h2 h
    push_cast at h2
    linarith
  | succ n ih =>
    intro te inp r h1 h2 h
    simp only [waitForPattern] at h
    split at h
    · exact WfpResult.noConfusion h
    · rw [if_pos ht] at h
      by_cases hto : t ≤ te + 1 / 1000
      · rw [if_pos hto] at h
        exact WfpResult.noConfusion h
      · rw [if_neg hto] at h
        push_neg at hto
        refine ih (te + 1 / 1000) _ r hto ?_ h
        push_cast at h2 ⊢
        linarith

theorem wfp_empty_no_success (pat : List ℕ) (t : ℚ) :
    ∀ (fuel : ℕ) (te : ℚ) r, waitForPattern pat t fuel te [] ≠ .success r := by
  intro fuel
  induction fuel with
  | zero => intro te r h; exact WfpResult.noConfusion h
  | succ n ih =>
    intro te r h
    have hpass : (if pat = [] then ((false : Bool), ([] : List ℕ))
        else matchPass pat []) = (false, []) := by
      by_cases hpat : pat = []
      · rw [if_pos hpat]
      · rw [if_neg hpat]
        cases pat with
        | nil => exact absurd rfl hpat
        | cons q qs => rfl
    simp only [waitForPattern, hpass] at h
    split at h
    · split at h
      · exact WfpResult.noConfusion h
      · exact ih _ r h
    · exact ih _ r h

theorem wfp_zero_eq_slidingMatch (pat : List ℕ) (hpat : pat ≠ []) :
    ∀ (fuel : ℕ) inp (te : ℚ) r, inp.length < fuel →
      (waitForPattern pat 0 fuel te inp = .success r ↔ slidingMatch pat inp = some r) := by
  intro fuel
  induction fuel with
  | zero => intro inp te r h; exact absurd h (Nat.not_lt_zero _)
  | succ n ih =>
    intro inp te r hlen
    rw [slidingMatch]
    simp only [waitForPattern, if_neg hpat]
    rcases hmp : matchPass pat inp with ⟨b, rest⟩
    cases b
    · dsimp only
      rw [if_neg (lt_irrefl 0)]
      rw [matchPass_false_scan pat hpat pat inp rest hmp]
      rcases matchPass_false_progress pat inp rest hmp with ⟨hinp, hrest⟩ | hlt
      · subst hinp; subst hrest
        constructor
        · intro h; exact absurd h (wfp_empty_no_success pat 0 n te r)
        · intro h
          cases pat with
          | nil => exact absurd rfl hpat
          | cons q qs => rw [slidingScan] at h; exact Option.noConfusion h
      · exact ih rest te r (by omega)
    · dsimp only
      rw [matchPass_true_scan pat pat inp rest hmp]
      constructor
      · intro h; cases h; rfl
      · intro h
        cases h
        rfl

theorem wfp_prefix (pat : List ℕ) (hpat : pat ≠ []) (t : ℚ) (fuel : ℕ) (te : ℚ)
    (rest : List ℕ) :
    waitForPattern pat t (fuel + 1) te (pat ++ rest) = .success rest := by
  simp only [waitForPattern, if_neg hpat, matchPass_self]

open Real in
/-- Identity-gate rotation of a canonically stored state, evaluated. -/
theorem rotate_identity (θ φ : ℝ) (h0 : 0 ≤ θ) (h1 : θ ≤ π)
    (h2 : 0 ≤ φ) (h3 : φ < 2 * π) :
    rotate θ φ identityOperator =
      (θ, if θ = 0 then 0 else if φ ≤ π then φ else φ - 2 * π) := by
  rw [rotate]
  simp only [getStandardBasisState, matVecMul_identity, List.getD_cons_zero,
    List.getD_cons_succ]
  exact setStandardBasisState_unit θ φ h0 h1 h2 h3

open Real in
/-- C1 (counterexample): at input `(theta, phi) = (0, 2π)` the constructor
leaves `phi` at exactly `2π` (the wrap loop runs only `while phi > 2π`), so
the constructed state violates the claimed strict bound `phi < 2π`. -/
theorem quantumBitStateInit_phi_two_pi :
    quantumBitStateInit 0 (2 * π) = (0, 2 * π) ∧
      ¬ (quantumBitStateInit 0 (2 * π)).2 < 2 * π := by
  have hπ := Real.pi_pos
  have h1 : wrapUpTwoPi (0 : ℝ) = 0 := wrapUpTwoPi_of_nonneg le_rfl
  have h2 : wrapDownTwoPi (0 : ℝ) = 0 := wrapDownTwoPi_of_le (by linarith)
  have h3 : wrapUpTwoPi (2 * π) = 2 * π := wrapUpTwoPi_of_nonneg (by linarith)
  have h4 : wrapDownTwoPi (2 * π) = 2 * π := wrapDownTwoPi_of_le le_rfl
  have key : quantumBitStateInit 0 (2 * π) = (0, 2 * π) := by
    rw [quantumBitStateInit, h1, h2, if_neg (by linarith), h3, h4]
  exact ⟨key, by rw [key]; exact lt_irrefl _⟩

open Real in
/-- C1 (amended): for every real input pair the constructed state satisfies
`0 ≤ theta ≤ π` and `0 ≤ phi ≤ 2π` (the upper bound for `phi` is attained,
e.g. at input `phi = 2π`), where `theta` is the input wrapped modulo `2π`
and, when the wrapped value exceeds `π`, mirrored with `π` added to `phi`
before `phi`'s own modulo-`2π` wrapping. -/
theorem quantumBitStateInit_canonical (θ φ : ℝ) :
    (0 ≤ (quantumBitStateInit θ φ).1 ∧ (quantumBitStateInit θ φ).1 ≤ π) ∧
    (0 ≤ (quantumBitStateInit θ φ).2 ∧ (quantumBitStateInit θ φ).2 ≤ 2 * π) ∧
    ((∃ n m : ℤ, (quantumBitStateInit θ φ).1 = θ + 2 * π * n ∧
        (quantumBitStateInit θ φ).2 = φ + 2 * π * m) ∨
     (∃ n m : ℤ, (quantumBitStateInit θ φ).1 = -θ + 2 * π * n ∧
        (quantumBitStateInit θ φ).2 = φ + π + 2 * π * m)) := by
  obtain ⟨ht0, ht1, n, hn⟩ := wrap_both θ
  rw [quantumBitStateInit]
  split_ifs with hmir
  · obtain ⟨hp0, hp1, m, hm⟩ := wrap_both (φ + π)
    dsimp only
    refine ⟨⟨by linarith, by linarith⟩, ⟨hp0, hp1⟩, Or.inr ⟨1 - n, m, ?_, ?_⟩⟩
    · show 2 * π - wrapDownTwoPi (wrapUpTwoPi θ) = -θ + 2 * π * (1 - n : ℤ)
      rw [hn]; push_cast; ring
    · show wrapDownTwoPi (wrapUpTwoPi (φ + π)) = φ + π + 2 * π * m
      rw [hm]
  · obtain ⟨hp0, hp1, m, hm⟩ := wrap_both φ
    exact ⟨⟨ht0, not_lt.mp hmir⟩, ⟨hp0, hp1⟩, Or.inl ⟨n, m, hn, hm⟩⟩

/-- C8 (code evaluated at the failing input): two successive
`QuStates(num_bits=1)` constructions append to the same class-level `states`
list, so after the second construction `getNumBits()` of both instances is
2, not 1. -/
theorem quStates_shared_class_list :
    quStatesInit [] 1 0 0 = .ok [(0, 0)] ∧
    quStatesInit [(0, 0)] 1 0 0 = .ok [(0, 0), (0, 0)] ∧
    getNumBits [(0, 0), (0, 0)] = 2 ∧ (2 : ℕ) ≠ 1 := by
  have h := quantumBitStateInit_zero
  refine ⟨?_, ?_, by simp [getNumBits], by omega⟩ <;>
    simp [quStatesInit, h]

/-- When no publish lands between the two attribute loads, the observed pair
is one of the published pairs: the model only tears across the two loads. -/
theorem getQuantumStateObserved_atomic (init : ℚ × ℚ) (before : List (ℚ × ℚ)) :
    getQuantumStateObserved init before [] ∈ init :: before := by
  rw [getQuantumStateObserved, List.append_nil]
  cases hl : before.getLast? with
  | none => simp [publishedAfter, hl]
  | some p =>
    simp only [publishedAfter, hl, Option.getD_some, Prod.mk.eta]
    obtain ⟨hne, hp⟩ := List.mem_getLast?_eq_getLast (l := before) (Option.mem_def.mpr hl)
    refine List.mem_cons_of_mem _ ?_
    rw [hp]
    exact List.getLast_mem hne

/-- C9 (code evaluated at the failing interleaving): with initial published
state `(0, 0)` and one publish `(1, 2)` landing between the hook's `theta`
load and its `phi` load, the served pair is `(0, 2)`, which was never
published as a unit. -/
theorem getQuantumState_torn_pair :
    getQuantumStateObserved (0, 0) [] [(1, 2)] = (0, 2) ∧
      ((0 : ℚ), (2 : ℚ)) ∉ ([(0, 0), (1, 2)] : List (ℚ × ℚ)) := by
  decide

open Real in
/-- C5 (counterexample): the identity gate applied to the state
`(theta, phi) = (π/2, 3π/2)` stores `phi = -π/2`: the re-derivation via
`cmath.phase` rewraps `phi` into `(-π, π]`, moving it by `2π > 6`, so the
stored pair is not unchanged within any small tolerance. -/
theorem operate_identity_moves_phi :
    operate (π / 2) (3 * π / 2) identityOperator = .ok (π / 2, -(π / 2)) ∧
      3 * π / 2 - -(π / 2) = 2 * π ∧ (6 : ℝ) < 2 * π := by
  have hπ := Real.pi_pos
  refine ⟨?_, by ring, by linarith [Real.pi_gt_three]⟩
  have h := rotate_identity (π / 2) (3 * π / 2) (by positivity) (by linarith)
    (by positivity) (by linarith)
  rw [operate, if_neg (by simp [identityOperator]), h, if_neg (by positivity),
    if_neg (not_le.mpr (by linarith)),
    show 3 * π / 2 - 2 * π = -(π / 2) from by ring]

open Real in
/-- C5 (amended): on a canonically stored state, the identity gate leaves
`theta` exactly unchanged; `phi` is unchanged when `phi ≤ π`, is rewrapped
to `phi - 2π` when `phi > π` (the re-derivation returns `cmath.phase`, which
lands in `(-π, π]`), and is reset to 0 when `theta = 0`. -/
theorem operate_identity_modulo (θ φ : ℝ) (h0 : 0 ≤ θ) (h1 : θ ≤ π)
    (h2 : 0 ≤ φ) (h3 : φ < 2 * π) :
    operate θ φ identityOperator =
      .ok (θ, if θ = 0 then 0 else if φ ≤ π then φ else φ - 2 * π) := by
  rw [operate, if_neg (by simp [identityOperator]),
    rotate_identity θ φ h0 h1 h2 h3]

open Real in
/-- Witness for the amended C5 theorem at the concrete state `(0, 0)`. -/
theorem operate_identity_modulo_witness :
    (0 : ℝ) ≤ 0 ∧ (0 : ℝ) ≤ π ∧ (0 : ℝ) ≤ 0 ∧ (0 : ℝ) < 2 * π ∧
      operate 0 0 identityOperator =
        .ok (0, if (0 : ℝ) = 0 then 0 else if (0 : ℝ) ≤ π then 0 else 0 - 2 * π) :=
  ⟨le_rfl, Real.pi_nonneg, le_rfl, by positivity,
    operate_identity_modulo 0 0 le_rfl Real.pi_nonneg le_rfl (by positivity)⟩

theorem svc_state_noHook (gct : Option (TileState → ℕ))
    (rop : Option (TileState → String → TileState)) (pack : ℚ → List ℕ)
    (t : TileState) (b1 b2 b3 : ℕ) (rest : List ℕ) (fuel : ℕ) :
    serviceRequest ⟨none, gct, rop⟩ pack t
        (msgHeader ++ 0x01 :: b1 :: b2 :: b3 :: rest) (fuel + 1) =
      some ⟨msgHeader ++ [0x81, 1, 1, 0], [],
        some "Function for tateRequestCallback is not set.", t⟩ := by
  rw [serviceRequest, wfp_prefix msgHeader (by decide) 0 fuel 0 _]
  simp

theorem svc_state_hook (g : TileState → ℚ × ℚ) (gct : Option (TileState → ℕ))
    (rop : Option (TileState → String → TileState)) (pack : ℚ → List ℕ)
    (t : TileState) (b1 b2 b3 : ℕ) (rest : List ℕ) (fuel : ℕ) :
    serviceRequest ⟨some g, gct, rop⟩ pack t
        (msgHeader ++ 0x01 :: b1 :: b2 :: b3 :: rest) (fuel + 1) =
      some ⟨msgHeader ++ [0x81, 1, 1, 0] ++ pack (g t).1 ++ pack (g t).2, [],
        none, t⟩ := by
  rw [serviceRequest, wfp_prefix msgHeader (by decide) 0 fuel 0 _]
  simp

theorem svc_type_noHook (gqs : Option (TileState → ℚ × ℚ))
    (rop : Option (TileState → String → TileState)) (pack : ℚ → List ℕ)
    (t : TileState) (b1 b2 b3 : ℕ) (rest : List ℕ) (fuel : ℕ) :
    serviceRequest ⟨gqs, none, rop⟩ pack t
        (msgHeader ++ 0x02 :: b1 :: b2 :: b3 :: rest) (fuel + 1) =
      some ⟨msgHeader, [], some "Function for getComponentType is not set.", t⟩ := by
  rw [serviceRequest, wfp_prefix msgHeader (by decide) 0 fuel 0 _]
  simp

theorem svc_type_hook (gqs : Option (TileState → ℚ × ℚ)) (c : TileState → ℕ)
    (rop : Option (TileState → String → TileState)) (pack : ℚ → List ℕ)
    (t : TileState) (b1 b2 b3 : ℕ) (rest : List ℕ) (fuel : ℕ) :
    serviceRequest ⟨gqs, some c, rop⟩ pack t
        (msgHeader ++ 0x02 :: b1 :: b2 :: b3 :: rest) (fuel + 1) =
      some ⟨msgHeader ++ [0x82, c t, 0, 0], [], none, t⟩ := by
  rw [serviceRequest, wfp_prefix msgHeader (by decide) 0 fuel 0 _]
  simp

theorem svc_change_noHook (gqs : Option (TileState → ℚ × ℚ))
    (gct : Option (TileState → ℕ)) (pack : ℚ → List ℕ)
    (t : TileState) (id0 b2 b3 : ℕ) (rest : List ℕ) (fuel : ℕ) :
    serviceRequest ⟨gqs, gct, none⟩ pack t
        (msgHeader ++ 0x03 :: id0 :: b2 :: b3 :: rest) (fuel + 1) =
      some ⟨[], [("gate.cfg", gateTypeNameOfId id0)], none, t⟩ := by
  rw [serviceRequest, wfp_prefix msgHeader (by decide) 0 fuel 0 _]
  simp

theorem svc_change_hook (gqs : Option (TileState → ℚ × ℚ))
    (gct : Option (TileState → ℕ)) (rep : TileState → String → TileState)
    (pack : ℚ → List ℕ) (t : TileState) (id0 b2 b3 : ℕ) (rest : List ℕ) (fuel : ℕ) :
    serviceRequest ⟨gqs, gct, some rep⟩ pack t
        (msgHeader ++ 0x03 :: id0 :: b2 :: b3 :: rest) (fuel + 1) =
      some ⟨[], [("gate.cfg", gateTypeNameOfId id0)], none,
        rep t (gateTypeNameOfId id0)⟩ := by
  rw [serviceRequest, wfp_prefix msgHeader (by decide) 0 fuel 0 _]
  simp

/-- C3 (counterexample): a `TypeChangeRequest` that needs the
replace-operator hook is served with the hook unregistered without raising:
the configuration file is still written and `err` is `none`, so no exception
propagates out of `serviceRequest`. -/
theorem serviceRequest_missing_replaceOperator_no_raise :
    (serviceRequest ⟨none, none, none⟩ (fun _ => []) ⟨"IDENTITY", "IDENTITY", 1⟩
        (msgHeader ++ [0x03, 0x05, 0, 0]) 1).map SvcOut.err = some none ∧
    (serviceRequest ⟨none, none, none⟩ (fun _ => []) ⟨"IDENTITY", "IDENTITY", 1⟩
        (msgHeader ++ [0x03, 0x05, 0, 0]) 1).map SvcOut.files =
      some [("gate.cfg", "HADAMARD")] := by
  decide

/-- C3 (amended): a `StateRequest` with the get-state hook unregistered and a
`TypeRequest` with the get-type hook unregistered each raise out of
`serviceRequest`; a `TypeChangeRequest` with the replace-operator hook
unregistered is silently skipped (the configuration file is still written
and no error is raised); with the respective hook registered none of the
three requests raises. -/
theorem serviceRequest_hook_check :
    (∀ (gct : Option (TileState → ℕ)) (rop : Option (TileState → String → TileState))
        (pack : ℚ → List ℕ) (t : TileState) (b1 b2 b3 : ℕ) (rest : List ℕ) (fuel : ℕ),
      serviceRequest ⟨none, gct, rop⟩ pack t
          (msgHeader ++ 0x01 :: b1 :: b2 :: b3 :: rest) (fuel + 1) =
        some ⟨msgHeader ++ [0x81, 1, 1, 0], [],
          some "Function for tateRequestCallback is not set.", t⟩) ∧
    (∀ (gqs : Option (TileState → ℚ × ℚ)) (rop : Option (TileState → String → TileState))
        (pack : ℚ → List ℕ) (t : TileState) (b1 b2 b3 : ℕ) (rest : List ℕ) (fuel : ℕ),
      serviceRequest ⟨gqs, none, rop⟩ pack t
          (msgHeader ++ 0x02 :: b1 :: b2 :: b3 :: rest) (fuel + 1) =
        some ⟨msgHeader, [], some "Function for getComponentType is not set.", t⟩) ∧
    (∀ (gqs : Option (TileState → ℚ × ℚ)) (gct : Option (TileState → ℕ))
        (pack : ℚ → List ℕ) (t : TileState) (id0 b2 b3 : ℕ) (rest : List ℕ) (fuel : ℕ),
      serviceRequest ⟨gqs, gct, none⟩ pack t
          (msgHeader ++ 0x03 :: id0 :: b2 :: b3 :: rest) (fuel + 1) =
        some ⟨[], [("gate.cfg", gateTypeNameOfId id0)], none, t⟩) ∧
    (∀ (g : TileState → ℚ × ℚ) (gct : Option (TileState → ℕ))
        (rop : Option (TileState → String → TileState)) (pack : ℚ → List ℕ)
        (t : TileState) (b1 b2 b3 : ℕ) (rest : List ℕ) (fuel : ℕ),
      serviceRequest ⟨some g, gct, rop⟩ pack t
          (msgHeader ++ 0x01 :: b1 :: b2 :: b3 :: rest) (fuel + 1) =
        some ⟨msgHeader ++ [0x81, 1, 1, 0] ++ pack (g t).1 ++ pack (g t).2, [],
          none, t⟩) ∧
    (∀ (gqs : Option (TileState → ℚ × ℚ)) (c : TileState → ℕ)
        (rop : Option (TileState → String → TileState)) (pack : ℚ → List ℕ)
        (t : TileState) (b1 b2 b3 : ℕ) (rest : List ℕ) (fuel : ℕ),
      serviceRequest ⟨gqs, some c, rop⟩ pack t
          (msgHeader ++ 0x02 :: b1 :: b2 :: b3 :: rest) (fuel + 1) =
        some ⟨msgHeader ++ [0x82, c t, 0, 0], [], none, t⟩) ∧
    (∀ (gqs : Option (TileState → ℚ × ℚ)) (gct : Option (TileState → ℕ))
        (rep : TileState → String → TileState) (pack : ℚ → List ℕ)
        (t : TileState) (id0 b2 b3 : ℕ) (rest : List ℕ) (fuel : ℕ),
      serviceRequest ⟨gqs, gct, some rep⟩ pack t
          (msgHeader ++ 0x03 :: id0 :: b2 :: b3 :: rest) (fuel + 1) =
        some ⟨[], [("gate.cfg", gateTypeNameOfId id0)], none,
          rep t (gateTypeNameOfId id0)⟩) :=
  ⟨svc_state_noHook, svc_type_noHook, svc_change_noHook,
    svc_state_hook, svc_type_hook, svc_change_hook⟩

/-- C10: on a `StateRequest` with the get-state hook unregistered,
`serviceRequest` has already written the 4-byte sync pattern and the 4-byte
`StateResponse` command bytes to the downstream link (8 bytes, no payload)
when the missing-hook error is raised — the error is not atomic with respect
to link output. -/
theorem serviceRequest_truncated_frame_then_raise :
    ∀ (gct : Option (TileState → ℕ)) (rop : Option (TileState → String → TileState))
      (pack : ℚ → List ℕ) (t : TileState) (b1 b2 b3 : ℕ) (rest : List ℕ) (fuel : ℕ),
      serviceRequest ⟨none, gct, rop⟩ pack t
          (msgHeader ++ 0x01 :: b1 :: b2 :: b3 :: rest) (fuel + 1) =
        some ⟨msgHeader ++ [0x81, 1, 1, 0], [],
          some "Function for tateRequestCallback is not set.", t⟩ ∧
      (msgHeader ++ [0x81, 1, 1, 0]).length = 8 := by
  intro gct rop pack t b1 b2 b3 rest fuel
  exact ⟨svc_state_noHook gct rop pack t b1 b2 b3 rest fuel, by decide⟩

/-- C6: serving a `TypeChangeRequest` with id `0x05` writes `"HADAMARD"` to
`gate.cfg`, invokes the replace-operator hook so the active operator and
`GateType` become Hadamard, and writes no response bytes; serving the next
`TypeRequest` on the updated tile reports type id `0x05`. -/
theorem typeChange_hadamard_end_to_end :
    serviceRequest ⟨some (fun _ => (0, 0)), some TileState.typeVal, some tileReplaceOperator⟩
        (fun _ => [0, 0, 0, 0]) ⟨"IDENTITY", "IDENTITY", 0x01⟩
        (msgHeader ++ [0x03, 0x05, 0, 0]) 1 =
      some ⟨[], [("gate.cfg", "HADAMARD")], none, ⟨"HADAMARD", "HADAMARD", 0x05⟩⟩ ∧
    serviceRequest ⟨some (fun _ => (0, 0)), some TileState.typeVal, some tileReplaceOperator⟩
        (fun _ => [0, 0, 0, 0]) ⟨"HADAMARD", "HADAMARD", 0x05⟩
        (msgHeader ++ [0x02, 0, 0, 0]) 1 =
      some ⟨msgHeader ++ [0x82, 0x05, 0, 0], [], none, ⟨"HADAMARD", "HADAMARD", 0x05⟩⟩ := by
  decide

/-- C2 (counterexample): with three consecutive missed waits the request
loop already falls back to `(0.0, 0.0)` and signals open — even though a
fourth attempt would have succeeded on a complete, valid response frame —
so the fallback threshold is 3 consecutive misses, not 5. -/
theorem requestInputState_fallback_after_three_misses :
    (([false, false, false, true].takeWhile fun b => !b).length = 3 ∧ (3 : ℕ) < 5) ∧
    requestInputState [false, false, false, true]
        [0x81, 1, 1, 0, 0, 0, 128, 63, 0, 0, 128, 63] =
      some ((0, 0), .openInput) ∧
    requestInputState [true] [0x81, 1, 1, 0, 0, 0, 128, 63, 0, 0, 128, 63] =
      some ((1, 1), .validInput) := by
  refine ⟨⟨by decide, by decide⟩, ?_, ?_⟩
  · norm_num [requestInputState, requestInputStateGo]
  · norm_num [requestInputState, requestInputStateGo, readStatePhase,
      decodeF32le, leNat]

/-- C2 (amended): each missed wait adds `waitStep = 0.005` to the `timeLapse`
accumulator and the fallback fires on the first miss with
`timeLapse ≥ connectionTimeout = 0.01`, i.e. on the third consecutive miss,
returning `(0.0, 0.0)` with the open-input signal; a success on any of the
first three attempts proceeds to the response-read phase instead. -/
theorem requestInputState_miss_accumulator :
    (∀ (os : List Bool) (link : List ℕ),
        requestInputState (false :: false :: false :: os) link =
          some ((0, 0), .openInput)) ∧
    (∀ (os : List Bool) (link : List ℕ),
        requestInputState (true :: os) link = some (readStatePhase link)) ∧
    (∀ (os : List Bool) (link : List ℕ),
        requestInputState (false :: true :: os) link = some (readStatePhase link)) ∧
    (∀ (os : List Bool) (link : List ℕ),
        requestInputState (false :: false :: true :: os) link =
          some (readStatePhase link)) := by
  refine ⟨fun os link => ?_, fun os link => ?_, fun os link => ?_, fun os link => ?_⟩ <;>
    norm_num [requestInputState, requestInputStateGo]

/-- C4 (counterexample): a state-response frame whose payload is truncated
to 3 bytes makes the message-service read raise out of `unpack` — the
discarded `waitForBytes` result lets `read(8)` return a short buffer. -/
theorem messageServiceStep_raises_on_truncated_payload :
    messageServiceStep (msgHeader ++ [0x81, 1, 1, 0, 0, 0, 0]) 1 =
      .raised "unpack requires a buffer of 4 bytes" := by
  decide

/-- C4 (amended): `requestInputState`'s read phase returns the open-input
default on a truncated (fewer than 12 bytes) response and accepts a value
only from a complete frame with the state-response opcode; but the
message-service routine's state-response branch ignores its bounded wait's
result and raises on any payload shorter than 8 bytes. -/
theorem receive_truncation_behaviour :
    (∀ (b1 b2 b3 : ℕ) (payload : List ℕ), payload.length < 8 →
        ∃ e, messageServiceStep (msgHeader ++ 0x81 :: b1 :: b2 :: b3 :: payload) 1 =
          .raised e) ∧
    (∀ link : List ℕ, link.length < 12 → readStatePhase link = ((0, 0), .openInput)) ∧
    (∀ link : List ℕ, (readStatePhase link).2 = .validInput →
        12 ≤ link.length ∧ (link.take 12).getD 0 0 = 0x81) := by
  refine ⟨?_, ?_, ?_⟩
  · intro b1 b2 b3 payload hlen
    rw [messageServiceStep, wfp_prefix msgHeader (by decide) (1 / 100) 0 0 _]
    dsimp only
    rw [if_neg (by simp)]
    simp only [List.take_succ_cons, List.take_zero, List.drop_succ_cons, List.drop_zero,
      List.getD_cons_zero, reduceIte]
    by_cases h4 : payload.length < 4
    · refine ⟨"unpack requires a buffer of 4 bytes", ?_⟩
      rw [unpackF, if_neg (by simp [List.length_take]; omega)]
    · refine ⟨"unpack requires a buffer of 4 bytes", ?_⟩
      rw [unpackF, if_pos (by simp [List.length_take]; omega)]
      rw [unpackF, if_neg (by simp [List.length_drop, List.length_take]; omega)]
  · intro link hlen
    rw [readStatePhase, if_neg (by omega)]
  · intro link h
    rw [readStatePhase] at h
    by_cases h12 : 12 ≤ link.length
    · rw [if_pos h12] at h
      by_cases hop : (link.take 12).length = 12 ∧ (link.take 12).getD 0 0 = 0x81
      · exact ⟨h12, hop.2⟩
      · rw [if_neg hop] at h
        exact absurd h (by simp)
    · rw [if_neg h12] at h
      exact absurd h (by simp)

/-- Witness for the amended C4 theorem: a 3-byte payload raises; an empty
link yields the open default; a complete valid frame is accepted. -/
theorem receive_truncation_behaviour_witness :
    (([0, 0, 0] : List ℕ).length < 8 ∧
      ∃ e, messageServiceStep (msgHeader ++ 0x81 :: 1 :: 1 :: 0 :: [0, 0, 0]) 1 =
        .raised e) ∧
    (([] : List ℕ).length < 12 ∧ readStatePhase [] = ((0, 0), .openInput)) ∧
    ((readStatePhase [0x81, 1, 1, 0, 0, 0, 128, 63, 0, 0, 128, 63]).2 = .validInput ∧
      12 ≤ ([0x81, 1, 1, 0, 0, 0, 128, 63, 0, 0, 128, 63] : List ℕ).length ∧
      (([0x81, 1, 1, 0, 0, 0, 128, 63, 0, 0, 128, 63] : List ℕ).take 12).getD 0 0 = 0x81) :=
  ⟨⟨by decide, receive_truncation_behaviour.1 1 1 0 [0, 0, 0] (by decide)⟩,
   ⟨by decide, receive_truncation_behaviour.2.1 [] (by decide)⟩,
   ⟨by decide, receive_truncation_behaviour.2.2
      [0x81, 1, 1, 0, 0, 0, 128, 63, 0, 0, 128, 63] (by decide)⟩⟩

/-- C7: `waitForPattern` (a) succeeds only after the consumed bytes end in
one consecutive full copy of the pattern; (b) with `timeout = 0` it never
returns failure; (c) with a positive timeout it resolves (success or
failure) within the fuel bound `⌈1000·timeout⌉` — one sleep quantum of
0.001 per outer iteration — returning failure once the accumulated wait
reaches the timeout; (d) with unlimited time it succeeds exactly when the
spec's single-byte sliding matcher (restart on any mismatched byte) finds
the pattern, with the same remaining input. -/
theorem waitForPattern_spec :
    (∀ (pat : List ℕ) (t : ℚ) (fuel : ℕ) (inp r : List ℕ),
        waitForPattern pat t fuel 0 inp = .success r →
          ∃ junk, inp = junk ++ pat ++ r) ∧
    (∀ (pat : List ℕ) (fuel : ℕ) (inp r : List ℕ),
        waitForPattern pat 0 fuel 0 inp ≠ .timedOut r) ∧
    (∀ (pat : List ℕ) (t : ℚ) (inp r : List ℕ), 0 < t →
        waitForPattern pat t (⌈1000 * t⌉.toNat) 0 inp ≠ .fuelOut r) ∧
    (∀ (pat inp r : List ℕ), pat ≠ [] →
        (waitForPattern pat 0 (inp.length + 1) 0 inp = .success r ↔
          slidingMatch pat inp = some r)) := by
  refine ⟨fun pat t fuel inp r => wfp_success_decomp pat t fuel 0 inp r,
          fun pat fuel inp r => wfp_zero_no_timeout pat fuel 0 inp r,
          fun pat t inp r ht => ?_,
          fun pat inp r hpat =>
            wfp_zero_eq_slidingMatch pat hpat (inp.length + 1) inp 0 r (by omega)⟩
  refine wfp_pos_no_fuelOut pat t ht _ 0 inp r ht ?_
  have h2 : (1000 : ℚ) * t ≤ (⌈1000 * t⌉ : ℚ) := Int.le_ceil _
  have h3 : (0 : ℤ) ≤ ⌈(1000 : ℚ) * t⌉ := Int.ceil_nonneg (by positivity)
  have h4 : ((⌈(1000 : ℚ) * t⌉.toNat : ℕ) : ℚ) = ((⌈(1000 : ℚ) * t⌉ : ℤ) : ℚ) := by
    exact_mod_cast Int.toNat_of_nonneg h3
  rw [zero_add, h4]
  linarith

/-- Witness for the C7 theorem: its hypothesis-bearing parts applied at
concrete patterns and inputs. -/
theorem waitForPattern_spec_witness :
    ((0 : ℚ) < 1 ∧ waitForPattern [1] 1 (⌈(1000 : ℚ) * 1⌉.toNat) 0 [2] ≠ .fuelOut []) ∧
    (([1] : List ℕ) ≠ [] ∧
      (waitForPattern [1] 0 ([2, 1].length + 1) 0 [2, 1] = .success [] ↔
        slidingMatch [1] [2, 1] = some [])) :=
  ⟨⟨by norm_num, waitForPattern_spec.2.2.1 [1] 1 [2] [] (by norm_num)⟩,
   ⟨by decide, waitForPattern_spec.2.2.2 [1] [2, 1] [] (by decide)⟩⟩

end QuanTile
